import Mathlib

/-!
Verification development for the spreadsheet time-window reconciliation engine
(src/merge_excel.py).  The engine's data model and the three phases of the
algorithm (derive the missing window, union by key, output projection) are
embedded shallowly: pandas rows become association lists from column names to
cells, pandas numeric values become integers and rationals, and every fallible
pandas operation (column selection, iloc indexing) returns an Except value.
-/

namespace MergeExcel

/-- A spreadsheet cell: a Python int, a Python float (modelled as a rational),
a string, or a parsed datetime (the clean_date bookkeeping values). -/
inductive Cell where
  | intV (n : Int)
  | ratV (q : Rat)
  | strV (s : String)
  | dateV (y m d : Nat)
deriving Repr, DecidableEq

/-- Python str() of a cell, as used by astype(str) during key construction.
Grouping identifiers are ints or strings in the inputs; the float and datetime
renderings are stand-ins and no theorem depends on them. -/
def Cell.pyStr : Cell → String
  | .intV n => toString n
  | .ratV q => toString q
  | .strV s => s
  | .dateV y m d => toString y ++ "-" ++ toString m ++ "-" ++ toString d

/-- The numeric value of a cell, when it has one (Python int or float). -/
def Cell.toNum? : Cell → Option Rat
  | .intV n => some (n : Rat)
  | .ratV q => some q
  | _ => none

/-- Python binary + on cell values: numeric addition, string concatenation,
TypeError otherwise. int + int stays int, a float operand makes a float. -/
def cellAdd : Cell → Cell → Except String Cell
  | .intV a, .intV b => .ok (.intV (a + b))
  | .intV a, .ratV b => .ok (.ratV ((a : Rat) + b))
  | .ratV a, .intV b => .ok (.ratV (a + (b : Rat)))
  | .ratV a, .ratV b => .ok (.ratV (a + b))
  | .strV a, .strV b => .ok (.strV (a ++ b))
  | _, _ => .error "TypeError"

/-- Python binary - on cell values: numeric only. -/
def cellSub : Cell → Cell → Except String Cell
  | .intV a, .intV b => .ok (.intV (a - b))
  | .intV a, .ratV b => .ok (.ratV ((a : Rat) - b))
  | .ratV a, .intV b => .ok (.ratV (a - (b : Rat)))
  | .ratV a, .ratV b => .ok (.ratV (a - b))
  | _, _ => .error "TypeError"

/-- Python max(0, v): returns v when 0 < v, else the int 0 (max returns its
first argument on ties, and the literal 0 in the source is an int). -/
def cellMax0 : Cell → Except String Cell
  | .intV a => .ok (.intV (max 0 a))
  | .ratV q => .ok (if 0 < q then .ratV q else .intV 0)
  | _ => .error "TypeError"

/-- A row of a DataFrame: an association list from column labels to cells,
looked up like a pandas Series by label. -/
abbrev Row := List (String × Cell)

/-- Label lookup in a row (first binding wins, as labels are unique in pandas). -/
def Row.get? : Row → String → Option Cell
  | [], _ => none
  | p :: r, c => if p.1 = c then some p.2 else Row.get? r c

/-- Label assignment in a row: replace the first binding for the label in
place, or append a new binding at the end (pandas Series item assignment). -/
def Row.set : Row → String → Cell → Row
  | [], c, v => [(c, v)]
  | p :: r, c, v => if p.1 = c then (c, v) :: r else p :: Row.set r c v

/-- Remove a label's binding from a row (dropping a column). -/
def Row.removeCol (r : Row) (c : String) : Row :=
  r.filter (fun p => !(p.1 == c))

/-- Restrict a row to the given labels, in the given order (column selection). -/
def Row.restrict (r : Row) (cols : List String) : Row :=
  cols.filterMap (fun c => (Row.get? r c).map (fun v => (c, v)))

/-- The composite group id stored in a row's group_id column.  The pipeline
always stores it as a string; the default for a missing binding is never
reached on pipeline-produced rows. -/
def rowGid (r : Row) : String :=
  match Row.get? r "group_id" with
  | some (.strV s) => s
  | _ => ""

@[simp] theorem Row.get?_set_self (r : Row) (c : String) (v : Cell) :
    Row.get? (Row.set r c v) c = some v := by
  induction r with
  | nil => simp [Row.set, Row.get?]
  | cons p r ih =>
    by_cases h : p.1 = c
    · simp [Row.set, Row.get?, h]
    · simp [Row.set, Row.get?, h, ih]

theorem Row.get?_set_ne (r : Row) {c c' : String} (v : Cell) (h : c' ≠ c) :
    Row.get? (Row.set r c v) c' = Row.get? r c' := by
  induction r with
  | nil => simp [Row.set, Row.get?, Ne.symm h]
  | cons p r ih =>
    by_cases hp : p.1 = c
    · simp [Row.set, Row.get?, hp, Ne.symm h]
    · simp [Row.set, Row.get?, hp, ih]

theorem rowGid_set_ne (r : Row) {c : String} (v : Cell) (h : c ≠ "group_id") :
    rowGid (Row.set r c v) = rowGid r := by
  unfold rowGid
  rw [Row.get?_set_ne r v (Ne.symm h)]

theorem Row.get?_restrict_not_mem (r : Row) {cols : List String} {c : String}
    (h : c ∉ cols) : Row.get? (Row.restrict r cols) c = none := by
  induction cols with
  | nil => simp [Row.restrict, Row.get?]
  | cons c0 cs ih =>
    have hne : c ≠ c0 := fun hh => h (hh ▸ List.mem_cons_self c0 cs)
    have hns : c ∉ cs := fun hh => h (List.mem_cons_of_mem c0 hh)
    cases hv : Row.get? r c0 with
    | none => simpa [Row.restrict, hv] using ih hns
    | some v =>
      simp only [Row.restrict, List.filterMap_cons, hv, Option.map_some]
      simpa [Row.get?, Ne.symm hne] using ih hns

/-! ## Ratio-like column names -/

/-- Substring occurrence on character lists (Python in operator on str). -/
def hasSubstr (sub l : List Char) : Bool :=
  (List.range (l.length + 1)).any (fun i => (l.drop i).take sub.length == sub)

/-- The rate/ratio/ROAS markers of src/merge_excel.py line 163: a numeric
column whose lower-cased name contains one of them is left signed after
subtraction; all other numeric columns are floored at zero. -/
def ratioMarkers : List String := ["rate", "ratio", "roas", "率", "比例"]

/-- Python str.lower(), character by character. -/
def pyLower (s : String) : String :=
  String.mk (s.toList.map Char.toLower)

/-- Whether a column name carries a rate/ratio/ROAS marker
(any(substr in col.lower() for substr in [...])). -/
def ratioLike (col : String) : Bool :=
  ratioMarkers.any (fun m => hasSubstr m.toList (pyLower col).toList)

/-! ## Dates -/

/-- A calendar date (pandas Timestamp at midnight). -/
structure Date where
  y : Nat
  m : Nat
  d : Nat
deriving Repr, DecidableEq

def isLeap (y : Nat) : Bool :=
  (y % 4 == 0 && y % 100 != 0) || y % 400 == 0

def daysInMonth (y m : Nat) : Nat :=
  if m = 2 then (if isLeap y then 29 else 28)
  else if m = 4 ∨ m = 6 ∨ m = 9 ∨ m = 11 then 30 else 31

/-- The day after a date (timedelta(days=1)). -/
def nextDay (dt : Date) : Date :=
  if dt.d < daysInMonth dt.y dt.m then ⟨dt.y, dt.m, dt.d + 1⟩
  else if dt.m < 12 then ⟨dt.y, dt.m + 1, 1⟩
  else ⟨dt.y + 1, 1, 1⟩

/-- Zeller's congruence, mapped to strftime %a abbreviations. -/
def weekdayAbbrev (dt : Date) : String :=
  let my := if dt.m ≤ 2 then (dt.m + 12, dt.y - 1) else (dt.m, dt.y)
  let k := my.2 % 100
  let j := my.2 / 100
  let h := (dt.d + (13 * (my.1 + 1)) / 5 + k + k / 4 + j / 4 + 5 * j) % 7
  ["Sat", "Sun", "Mon", "Tue", "Wed", "Thu", "Fri"].getD h ""

def pad2 (n : Nat) : String :=
  if n < 10 then "0" ++ toString n else toString n

/-- strftime %Y-%m-%d. -/
def isoString (dt : Date) : String :=
  toString dt.y ++ "-" ++ pad2 dt.m ++ "-" ++ pad2 dt.d

/-- strftime %Y-%m-%d(%a), the display format stamped on output rows. -/
def formatDateDisplay (dt : Date) : String :=
  isoString dt ++ "(" ++ weekdayAbbrev dt ++ ")"

/-- pd.to_datetime on an ISO yyyy-mm-dd string (None on anything it would
reject). -/
def parseIsoDate (s : String) : Option Date :=
  match s.splitOn "-" with
  | [ys, ms, ds] =>
    match ys.toNat?, ms.toNat?, ds.toNat? with
    | some y, some m, some dd =>
      if 1 ≤ m ∧ m ≤ 12 ∧ 1 ≤ dd ∧ dd ≤ daysInMonth y m then some ⟨y, m, dd⟩
      else none
    | _, _, _ => none
  | _ => none

/-- Whether the first ten characters match the regex \d{4}-\d{2}-\d{2}
anchored at the start of the string (re.match in extract_date). -/
def datePrefixMatch (s : String) : Bool :=
  match s.toList with
  | a :: b :: c :: d :: h1 :: e :: f :: h2 :: g :: k :: _ =>
    a.isDigit && b.isDigit && c.isDigit && d.isDigit && h1 == '-' &&
    e.isDigit && f.isDigit && h2 == '-' && g.isDigit && k.isDigit
  | _ => false

/-- extract_date of src/merge_excel.py lines 74-80: on a string, keep the
leading yyyy-mm-dd token when it matches, else return the value unchanged;
non-strings are returned unchanged. -/
def extractDate : Cell → Cell
  | .strV s => if datePrefixMatch s then .strV (String.mk (s.toList.take 10)) else .strV s
  | c => c

/-! ## DataFrames -/

/-- A DataFrame: an ordered column schema and an ordered list of rows. -/
structure DF where
  cols : List String
  rows : List Row
deriving Repr, DecidableEq

/-- Drop a column (df.drop(columns=[c]), a no-op when the column is absent,
matching the guarded drops in the source). -/
def DF.dropCol (df : DF) (c : String) : DF :=
  ⟨df.cols.filter (fun x => !(x == c)), df.rows.map (fun r => r.removeCol c)⟩

/-- Select the given columns in the given order (df[cols]). -/
def DF.selectCols (df : DF) (cols : List String) : DF :=
  ⟨cols, df.rows.map (fun r => r.restrict cols)⟩

/-- Re-order the frame's columns to follow a reference order, keeping only
columns the frame has (lines 451-453). -/
def reorderCols (df : DF) (order : List String) : DF :=
  df.selectCols (order.filter (fun c => df.cols.contains c))

/-- Whole-column assignment df[c] = v: overwrites the column when present,
appends it at the end otherwise. -/
def DF.setCol (df : DF) (c : String) (v : Cell) : DF :=
  ⟨if df.cols.contains c then df.cols else df.cols ++ [c],
   df.rows.map (fun r => r.set c v)⟩

/-- Monadic map over Except, by structural recursion: the elementwise loops
of the source (one result per input, first error propagated). -/
def exMapM {α β : Type _} (f : α → Except String β) : List α → Except String (List β)
  | [] => .ok []
  | a :: l =>
    match f a, exMapM f l with
    | .ok b, .ok bs => .ok (b :: bs)
    | .error e, _ => .error e
    | .ok _, .error e => .error e

/-! ## Composite key construction (create_group_id, lines 58-67) -/

/-- The grouping columns for the composite group id (line 56). -/
def groupingColumns : List String := ["书籍ID", "渠道ID", "Ad Group ID", "Ad ID"]

/-- Python str.strip(): drop leading and trailing whitespace. -/
def pyStrip (s : String) : String :=
  String.mk (((s.toList.dropWhile Char.isWhitespace).reverse.dropWhile
    Char.isWhitespace).reverse)

/-- One component of the composite key: the cell rendered with str() and
stripped of surrounding whitespace when the column exists; selecting a
grouping column absent from the frame raises KeyError. -/
def keyPart (cols : List String) (r : Row) (c : String) : Except String String :=
  if cols.contains c then
    match r.get? c with
    | some v => .ok (pyStrip v.pyStr)
    | none => .error "KeyError"
  else .error "KeyError"

/-- create_group_id for one row: normalize each grouping field to trimmed
text and join with the fixed separator. -/
def createGroupId (cols : List String) (r : Row) : Except String String :=
  (exMapM (keyPart cols r) groupingColumns).map (String.intercalate "_")

/-- Lines 70-71: compute and store the group_id column of a frame.  Selecting
df_copy[grouping_columns] raises KeyError when a grouping column is absent
from the schema, even for a frame with no rows. -/
def addGroupId (df : DF) : Except String DF := do
  if groupingColumns.all (fun c => df.cols.contains c) then
    let rows' ← exMapM (fun r => do
      let g ← createGroupId df.cols r
      pure (r.set "group_id" (.strV g))) df.rows
    pure (⟨if df.cols.contains "group_id" then df.cols else df.cols ++ ["group_id"],
           rows'⟩ : DF)
  else Except.error "KeyError"

/-! ## Clean dates (lines 83-88) -/

/-- Extract and parse the clean_date column from the 日期 column; accessing a
missing 日期 column raises KeyError and an unparseable date raises in
pd.to_datetime. -/
def addCleanDate (df : DF) : Except String DF := do
  if df.cols.contains "日期" then
    let rows' ← exMapM (fun (r : Row) => do
      match r.get? "日期" with
      | none => Except.error "KeyError"
      | some v =>
        match extractDate v with
        | .strV s =>
          match parseIsoDate s with
          | some dt => pure (r.set "clean_date" (.dateV dt.y dt.m dt.d))
          | none => Except.error "DateParseError"
        | .dateV y m d => pure (r.set "clean_date" (.dateV y m d))
        | _ => Except.error "DateParseError") df.rows
    pure (⟨if df.cols.contains "clean_date" then df.cols else df.cols ++ ["clean_date"],
           rows'⟩ : DF)
  else Except.error "KeyError"

/-- Row filter for one date partition (clean_date == dt). -/
def cleanDateIs (dt : Date) (r : Row) : Bool :=
  r.get? "clean_date" == some (.dateV dt.y dt.m dt.d)

/-! ## Numeric column discovery (lines 118-125) -/

/-- The fixed exclusion list of non-numeric columns (lines 119-121). -/
def nonNumericColNames : List String :=
  ["日期", "clean_date", "group_id", "书籍ID", "书籍名称(书籍ID)",
   "对应英语书籍名称", "书籍变现类型", "媒体类型", "渠道名称", "渠道ID",
   "Ad Group Name", "Ad Group ID", "Ad Name", "Ad ID"]

/-- pd.api.types.is_numeric_dtype for the model: every cell of the column is
a Python number. -/
def isNumericDtype (df : DF) (c : String) : Bool :=
  df.rows.all (fun r =>
    match r.get? c with
    | some (.intV _) => true
    | some (.ratV _) => true
    | _ => false)

/-- The dynamically discovered metric columns: every column of the combined
table not in the exclusion list that holds numeric values. -/
def numericColumns (df : DF) : List String :=
  df.cols.filter (fun c => !(nonNumericColNames.contains c) && isNumericDtype df c)

/-! ## Per-key lookups -/

/-- Keep the first occurrence of every group id, in iteration order (the
iteration order of the Python dicts keyed by group_id), carrying the set of
keys already seen. -/
def firstDedupAux (seen : List String) : List String → List String
  | [] => []
  | a :: l =>
    if seen.contains a then firstDedupAux seen l
    else a :: firstDedupAux (a :: seen) l

/-- Keep the first occurrence of every group id, in iteration order. -/
def firstDedup (l : List String) : List String := firstDedupAux [] l

/-- The first row carrying a group id (next(...) at line 150, .iloc[0] at
lines 206-207). -/
def firstRowWith (g : String) (rows : List Row) : Option Row :=
  rows.find? (fun r => rowGid r == g)

/-- The last row carrying a group id: the row whose numeric values survive in
the dicts of lines 135-142, which overwrite on every occurrence of a key. -/
def lastRowWith (g : String) (rows : List Row) : Option Row :=
  (rows.filter (fun r => rowGid r == g)).getLast?

/-- The dict comprehensions of lines 137 and 142 index every row by every
numeric column; a row missing one of those columns raises KeyError. -/
def extractAllCheck (rows : List Row) (ncols : List String) : Except String Unit :=
  if rows.all (fun r => ncols.all (fun c => (r.get? c).isSome)) then .ok ()
  else .error "KeyError"

/-! ## Row update loops -/

/-- A per-column update loop over a copied row: for each column, an update
that does not depend on the accumulating row either yields a new cell, skips
the column, or raises.  Both the subtraction loop (lines 159-164) and the
summation loop (lines 213-215) have this shape. -/
def updateCols (upd : String → Except String (Option Cell)) :
    List String → Row → Except String Row
  | [], r => .ok r
  | c :: cs, r =>
    match upd c with
    | .error e => .error e
    | .ok (some v) => updateCols upd cs (r.set c v)
    | .ok none => updateCols upd cs r

/-- Lines 210-215: combine a midnight row and a second-date row by summing
each numeric column present in both rows, everything else kept from the
midnight copy. -/
def combineRow (mrow srow : Row) (ncols : List String) : Except String Row :=
  updateCols (fun c =>
    match mrow.get? c, srow.get? c with
    | some a, some b => (cellAdd a b).map some
    | _, _ => .ok none) ncols mrow

/-- Lines 148-166, one iteration of the derive loop for group id g.  The
metadata row is the first combined_first row with the key (next(...)); the
numeric values come from the dicts, hence from the last row with the key.
When the key has no match in table1, the relabeled raw row is kept.  A key
with no row yields None (next(..., None)), which the loop skips. -/
def deriveRowStep (t1first cfirst : List Row) (ncols : List String)
    (dd cd : Cell) (g : String) : Except String (Option Row) :=
  match firstRowWith g cfirst, lastRowWith g cfirst with
  | some r0, some cl =>
    let r1 := (r0.set "日期" dd).set "clean_date" cd
    match lastRowWith g t1first with
    | none => .ok (some r1)
    | some tl =>
      (updateCols (fun c => do
        let d ← cellSub ((cl.get? c).getD (.intV 0)) ((tl.get? c).getD (.intV 0))
        let d' ← if ratioLike c then pure d else cellMax0 d
        pure (some d')) ncols r1).map some
  | _, _ => .ok (none : Option Row)

/-- The derive loop: append each produced row, skip missing keys, propagate
errors. -/
def deriveFold (step : String → Except String (Option Row)) :
    List String → List Row → Except String (List Row)
  | [], acc => .ok acc
  | g :: gs, acc =>
    match step g with
    | .error e => .error e
    | .ok (some r) => deriveFold step gs (acc ++ [r])
    | .ok none => deriveFold step gs acc

/-- STEP 1 (lines 129-169): derive the midnight-to-3pm dataset.  The value
dicts are built eagerly over all rows first; the derive loop then walks the
distinct keys of combined_first in first-insertion order. -/
def deriveMidnight (t1first cfirst : List Row) (ncols : List String)
    (dd cd : Cell) : Except String (List Row) := do
  extractAllCheck t1first ncols
  extractAllCheck cfirst ncols
  deriveFold (deriveRowStep t1first cfirst ncols dd cd)
    (firstDedup (cfirst.map rowGid)) []

/-- One combined row of the union step (lines 204-217): look up the first
row with the key in each dataset (.iloc[0]) and combine them. -/
def unionCombineStep (m s : List Row) (ncols : List String) (g : String) :
    Except String Row :=
  match firstRowWith g m, firstRowWith g s with
  | some mr, some sr => combineRow mr sr ncols
  | _, _ => .error "IndexError"

/-- STEPS 2-3 (lines 173-279): union by key with duplicate combination, with
the empty-input edge cases of lines 269-279.  The common keys are iterated in
first-insertion order of the midnight dataset (the source iterates a Python
set, whose order is unspecified). -/
def unionStep (m s : List Row) (ncols : List String) : Except String (List Row) :=
  if m.isEmpty then .ok s
  else if s.isEmpty then .ok m
  else
    ((exMapM (unionCombineStep m s ncols)
        ((firstDedup (m.map rowGid)).filter (fun g => (s.map rowGid).contains g))).map
      (fun crows =>
        m.filter (fun r => !((s.map rowGid).contains (rowGid r))) ++
        s.filter (fun r => !((m.map rowGid).contains (rowGid r))) ++ crows))

/-! ## Output projection (lines 441-472) -/

/-- Python positional index resolution: negative indices count from the end. -/
def pyIndex (n i : Int) : Int := if i < 0 then n + i else i

/-- Positional column access of .iloc: negative indices count from the end,
anything out of bounds raises IndexError. -/
def ilocCol (cols : List String) (i : Int) : Except String String :=
  if pyIndex (cols.length : Int) i < 0 then .error "IndexError"
  else
    match cols[(pyIndex (cols.length : Int) i).toNat]? with
    | some c => .ok c
    | none => .error "IndexError"

/-- Lines 456-467 (and 502-507): keep the caller-chosen positional columns.
Only indices i with i < len(columns) are filtered out; when none remain the
full column set is kept. -/
def applyTarget (df : DF) : Option (List Int) → Except String DF
  | none => .ok df
  | some tc =>
    let valid := tc.filter (fun i => i < (df.cols.length : Int))
    if valid.isEmpty then .ok df
    else (exMapM (ilocCol df.cols) valid).map df.selectCols

/-- Lines 441-472: the projection applied to the reconciled dataset before it
is emitted: drop the bookkeeping columns, restore the combined table's column
order, apply the positional column choice, and stamp the date column with the
day after the second date. -/
def outputProjection (combinedCols : List String) (fullDay : DF)
    (target : Option (List Int)) (secondDate : Date) : Except String DF := do
  let d1 := (fullDay.dropCol "clean_date").dropCol "group_id"
  let d2 := reorderCols d1 combinedCols
  let d3 ← applyTarget d2 target
  pure (d3.setCol "日期" (.strV (formatDateDisplay (nextDay secondDate))))

/-! ## The whole reconciliation stage (lines 56-279) -/

/-- The reconciliation stage on two already-loaded frames: key assignment,
date partitioning, numeric column discovery, the derive step and the union
step.  Any KeyError raised by a missing column propagates. -/
def reconcile (table1 combined : DF) (firstDate secondDate : Date) :
    Except String (List Row) := do
  let t1k ← addGroupId table1
  let cbk ← addGroupId combined
  let t1d ← addCleanDate t1k
  let cbd ← addCleanDate cbk
  let t1first := t1d.rows.filter (cleanDateIs firstDate)
  let cfirst := cbd.rows.filter (cleanDateIs firstDate)
  let csecond := cbd.rows.filter (cleanDateIs secondDate)
  let ncols := numericColumns cbd
  let m ← deriveMidnight t1first cfirst ncols
    (.strV (formatDateDisplay secondDate))
    (.dateV secondDate.y secondDate.m secondDate.d)
  unionStep m csecond ncols

/-! ## Except and mapM lemmas -/

@[simp] theorem exPure {α : Type _} (a : α) :
    (pure a : Except String α) = Except.ok a := rfl

@[simp] theorem exBind_ok {α β : Type _} (a : α) (f : α → Except String β) :
    (Except.ok a >>= f) = f a := rfl

@[simp] theorem exBind_error {α β : Type _} (e : String) (f : α → Except String β) :
    ((Except.error e : Except String α) >>= f) = Except.error e := rfl

@[simp] theorem exMap_ok {α β : Type _} (g : α → β) (a : α) :
    (Except.map g (Except.ok a : Except String α)) = Except.ok (g a) := rfl

@[simp] theorem exMap_error {α β : Type _} (g : α → β) (e : String) :
    (Except.map g (Except.error e : Except String α)) = (Except.error e : Except String β) := rfl

theorem exMapM_ok_length {α β : Type _} {f : α → Except String β} :
    ∀ {l : List α} {out : List β}, exMapM f l = .ok out → out.length = l.length := by
  intro l
  induction l with
  | nil => intro out h; rw [exMapM] at h; cases h; rfl
  | cons a l ih =>
    intro out h
    rw [exMapM] at h
    cases hfa : f a with
    | error e => rw [hfa] at h; cases hml : exMapM f l <;> simp [hml] at h
    | ok b =>
      cases hml : exMapM f l with
      | error e => rw [hfa, hml] at h; simp at h
      | ok bs =>
        rw [hfa, hml] at h
        cases h
        simp [ih hml]

theorem exMapM_ok_mem {α β : Type _} {f : α → Except String β} :
    ∀ {l : List α} {out : List β} {a : α},
      exMapM f l = .ok out → a ∈ l → ∃ b ∈ out, f a = .ok b := by
  intro l
  induction l with
  | nil => intro out a _ ha; cases ha
  | cons x l ih =>
    intro out a h ha
    rw [exMapM] at h
    cases hfa : f x with
    | error e => rw [hfa] at h; cases hml : exMapM f l <;> simp [hml] at h
    | ok b =>
      cases hml : exMapM f l with
      | error e => rw [hfa, hml] at h; simp at h
      | ok bs =>
        rw [hfa, hml] at h
        cases h
        rcases List.mem_cons.mp ha with hax | hal
        · exact ⟨b, List.mem_cons_self b bs, hax ▸ hfa⟩
        · obtain ⟨b2, hb2, hfb2⟩ := ih hml hal
          exact ⟨b2, List.mem_cons_of_mem b hb2, hfb2⟩

theorem exMapM_ok_forall {α β : Type _} {f : α → Except String β} :
    ∀ {l : List α} {out : List β} {b : β},
      exMapM f l = .ok out → b ∈ out → ∃ a ∈ l, f a = .ok b := by
  intro l
  induction l with
  | nil => intro out b h hb; rw [exMapM] at h; cases h; cases hb
  | cons x l ih =>
    intro out b h hb
    rw [exMapM] at h
    cases hfa : f x with
    | error e => rw [hfa] at h; cases hml : exMapM f l <;> simp [hml] at h
    | ok b0 =>
      cases hml : exMapM f l with
      | error e => rw [hfa, hml] at h; simp at h
      | ok bs =>
        rw [hfa, hml] at h
        cases h
        rcases List.mem_cons.mp hb with hbx | hbl
        · exact ⟨x, List.mem_cons_self x l, hbx ▸ hfa⟩
        · obtain ⟨a, ha, hfa2⟩ := ih hml hbl
          exact ⟨a, List.mem_cons_of_mem x ha, hfa2⟩

theorem exMapM_ok_of_map {α β : Type _} {f : α → Except String β} {g : α → β} :
    ∀ {l : List α}, (∀ a ∈ l, f a = .ok (g a)) → exMapM f l = .ok (l.map g) := by
  intro l
  induction l with
  | nil => intro _; rfl
  | cons x l ih =>
    intro h
    rw [exMapM, h x (List.mem_cons_self x l),
      ih (fun a ha => h a (List.mem_cons_of_mem x ha))]
    rfl

theorem exMapM_ok_countP {α β : Type _} {f : α → Except String β}
    {p : β → Bool} {q : α → Bool} :
    ∀ {l : List α} {out : List β}, exMapM f l = .ok out →
      (∀ a b, f a = .ok b → p b = q a) → out.countP p = l.countP q := by
  intro l
  induction l with
  | nil => intro out h _; rw [exMapM] at h; cases h; rfl
  | cons x l ih =>
    intro out h hpq
    rw [exMapM] at h
    cases hfa : f x with
    | error e => rw [hfa] at h; cases hml : exMapM f l <;> simp [hml] at h
    | ok b =>
      cases hml : exMapM f l with
      | error e => rw [hfa, hml] at h; simp at h
      | ok bs =>
        rw [hfa, hml] at h
        cases h
        simp [List.countP_cons, ih hml hpq, hpq x b hfa]

/-! ## firstDedup lemmas -/

theorem mem_firstDedupAux : ∀ (l seen : List String) (a : String),
    a ∈ firstDedupAux seen l ↔ a ∈ l ∧ a ∉ seen := by
  intro l
  induction l with
  | nil => intro seen a; simp [firstDedupAux]
  | cons b l ih =>
    intro seen a
    rw [firstDedupAux]
    by_cases hb : seen.contains b
    · rw [if_pos hb, ih]
      constructor
      · rintro ⟨hl, hs⟩
        exact ⟨List.mem_cons_of_mem b hl, hs⟩
      · rintro ⟨hl, hs⟩
        rcases List.mem_cons.mp hl with rfl | hl
        · exact absurd (by simpa using hb) hs
        · exact ⟨hl, hs⟩
    · rw [if_neg hb]
      constructor
      · intro h
        rcases List.mem_cons.mp h with rfl | h
        · exact ⟨List.mem_cons_self _ _, by simpa using hb⟩
        · have := (ih (b :: seen) a).mp h
          exact ⟨List.mem_cons_of_mem b this.1,
            fun hs => this.2 (List.mem_cons_of_mem b hs)⟩
      · rintro ⟨hl, hs⟩
        rcases List.mem_cons.mp hl with rfl | hl
        · exact List.mem_cons_self _ _
        · by_cases hab : a = b
          · subst hab
            exact List.mem_cons_self _ _
          · refine List.mem_cons_of_mem b ((ih (b :: seen) a).mpr ⟨hl, ?_⟩)
            intro hmem
            rcases List.mem_cons.mp hmem with h1 | h1
            · exact hab h1
            · exact hs h1

theorem mem_firstDedup (l : List String) (a : String) :
    a ∈ firstDedup l ↔ a ∈ l := by
  rw [firstDedup, mem_firstDedupAux]
  simp

theorem nodup_firstDedupAux : ∀ (l seen : List String),
    (firstDedupAux seen l).Nodup := by
  intro l
  induction l with
  | nil => intro seen; simp [firstDedupAux]
  | cons b l ih =>
    intro seen
    rw [firstDedupAux]
    by_cases hb : seen.contains b
    · rw [if_pos hb]
      exact ih seen
    · rw [if_neg hb]
      refine List.nodup_cons.mpr ⟨?_, ih (b :: seen)⟩
      intro hmem
      exact ((mem_firstDedupAux l (b :: seen) b).mp hmem).2 (List.mem_cons_self b seen)

theorem nodup_firstDedup (l : List String) : (firstDedup l).Nodup :=
  nodup_firstDedupAux l []

theorem firstDedupAux_eq_self : ∀ {l seen : List String}, l.Nodup →
    (∀ a ∈ l, a ∉ seen) → firstDedupAux seen l = l := by
  intro l
  induction l with
  | nil => intro seen _ _; rfl
  | cons b l ih =>
    intro seen hn hd
    rw [firstDedupAux]
    have hb : ¬ seen.contains b := by
      intro hc
      exact hd b (List.mem_cons_self b l) (by simpa using hc)
    rw [if_neg hb]
    congr 1
    refine ih (List.nodup_cons.mp hn).2 ?_
    intro a ha hmem
    rcases List.mem_cons.mp hmem with rfl | h1
    · exact (List.nodup_cons.mp hn).1 ha
    · exact hd a (List.mem_cons_of_mem b ha) h1

theorem firstDedup_eq_self {l : List String} (h : l.Nodup) : firstDedup l = l :=
  firstDedupAux_eq_self h (by simp)

/-! ## updateCols lemmas -/

theorem updateCols_ok_not_mem {u : String → Except String (Option Cell)} :
    ∀ {cols : List String} {r0 out : Row} {c : String},
      updateCols u cols r0 = .ok out → c ∉ cols → out.get? c = r0.get? c := by
  intro cols
  induction cols with
  | nil => intro r0 out c h _; rw [updateCols] at h; cases h; rfl
  | cons c0 cs ih =>
    intro r0 out c h hc
    have hc0 : c ≠ c0 := fun he => hc (he ▸ List.mem_cons_self c0 cs)
    have hcs : c ∉ cs := fun he => hc (List.mem_cons_of_mem c0 he)
    rw [updateCols] at h
    cases hu : u c0 with
    | error e => rw [hu] at h; simp at h
    | ok ov =>
      rw [hu] at h
      cases ov with
      | none => exact ih h hcs
      | some v => rw [ih h hcs, Row.get?_set_ne _ _ hc0]

theorem updateCols_ok_mem {u : String → Except String (Option Cell)} :
    ∀ {cols : List String} {r0 out : Row} {c : String} {v : Cell},
      cols.Nodup → c ∈ cols → u c = .ok (some v) →
      updateCols u cols r0 = .ok out → out.get? c = some v := by
  intro cols
  induction cols with
  | nil => intro r0 out c v _ hc _ _; cases hc
  | cons c0 cs ih =>
    intro r0 out c v hn hc hu h
    rw [updateCols] at h
    rcases List.mem_cons.mp hc with hc0 | hcs
    · subst hc0
      rw [hu] at h
      have hnotin : c ∉ cs := (List.nodup_cons.mp hn).1
      rw [updateCols_ok_not_mem h hnotin, Row.get?_set_self]
    · cases hu0 : u c0 with
      | error e => rw [hu0] at h; simp at h
      | ok ov =>
        rw [hu0] at h
        cases ov with
        | none => exact ih (List.nodup_cons.mp hn).2 hcs hu h
        | some w => exact ih (List.nodup_cons.mp hn).2 hcs hu h

theorem updateCols_skip_all {u : String → Except String (Option Cell)} :
    ∀ {cols : List String} {r0 : Row},
      (∀ c ∈ cols, u c = .ok none) → updateCols u cols r0 = .ok r0 := by
  intro cols
  induction cols with
  | nil => intro r0 _; rfl
  | cons c0 cs ih =>
    intro r0 h
    rw [updateCols, h c0 (List.mem_cons_self c0 cs)]
    exact ih (fun c hc => h c (List.mem_cons_of_mem c0 hc))

/-! ## deriveFold lemmas -/

theorem deriveFold_ok_acc_sub {step : String → Except String (Option Row)} :
    ∀ {gs : List String} {acc out : List Row},
      deriveFold step gs acc = .ok out → ∀ r ∈ acc, r ∈ out := by
  intro gs
  induction gs with
  | nil => intro acc out h r hr; rw [deriveFold] at h; cases h; exact hr
  | cons g gs ih =>
    intro acc out h r hr
    rw [deriveFold] at h
    cases hs : step g with
    | error e => rw [hs] at h; simp at h
    | ok res =>
      rw [hs] at h
      cases res with
      | none => exact ih h r hr
      | some r2 => exact ih h r (List.mem_append_left _ hr)

theorem deriveFold_ok_mem {step : String → Except String (Option Row)} :
    ∀ {gs : List String} {acc out : List Row} {g : String},
      deriveFold step gs acc = .ok out → g ∈ gs →
      ∃ res, step g = .ok res ∧ ∀ r, res = some r → r ∈ out := by
  intro gs
  induction gs with
  | nil => intro acc out g _ hg; cases hg
  | cons g0 gs ih =>
    intro acc out g h hg
    rw [deriveFold] at h
    cases hs : step g0 with
    | error e => rw [hs] at h; simp at h
    | ok res =>
      rw [hs] at h
      rcases List.mem_cons.mp hg with hg0 | hgs
      · subst hg0
        refine ⟨res, hs, ?_⟩
        intro r hr
        subst hr
        exact deriveFold_ok_acc_sub h r (List.mem_append_right _ (List.mem_singleton.mpr rfl))
      · cases res with
        | none => exact ih h hgs
        | some r2 => exact ih h hgs

theorem deriveFold_ok_forall {step : String → Except String (Option Row)} :
    ∀ {gs : List String} {acc out : List Row},
      deriveFold step gs acc = .ok out →
      ∀ r ∈ out, r ∈ acc ∨ ∃ g ∈ gs, step g = .ok (some r) := by
  intro gs
  induction gs with
  | nil => intro acc out h r hr; rw [deriveFold] at h; cases h; exact Or.inl hr
  | cons g0 gs ih =>
    intro acc out h r hr
    rw [deriveFold] at h
    cases hs : step g0 with
    | error e => rw [hs] at h; simp at h
    | ok res =>
      rw [hs] at h
      cases res with
      | none =>
        rcases ih h r hr with hacc | ⟨g, hg, hsg⟩
        · exact Or.inl hacc
        · exact Or.inr ⟨g, List.mem_cons_of_mem g0 hg, hsg⟩
      | some r2 =>
        rcases ih h r hr with hacc | ⟨g, hg, hsg⟩
        · rcases List.mem_append.mp hacc with hacc | hsine
          · exact Or.inl hacc
          · have : r = r2 := List.mem_singleton.mp hsine
            exact Or.inr ⟨g0, List.mem_cons_self g0 gs, this ▸ hs⟩
        · exact Or.inr ⟨g, List.mem_cons_of_mem g0 hg, hsg⟩

/-! ## Row lookup lemmas -/

theorem firstRowWith_some_of_mem {g : String} {rows : List Row}
    (h : g ∈ rows.map rowGid) :
    ∃ r, firstRowWith g rows = some r ∧ rowGid r = g := by
  obtain ⟨r, hr, hgid⟩ := List.mem_map.mp h
  have hex : ∃ x ∈ rows, (rowGid x == g) = true := ⟨r, hr, by simp [hgid]⟩
  have := List.find?_isSome.mpr hex
  cases hf : firstRowWith g rows with
  | none => rw [firstRowWith] at hf; rw [hf] at this; simp at this
  | some r0 =>
    refine ⟨r0, rfl, ?_⟩
    have := List.find?_some hf
    simpa using this

theorem lastRowWith_some_of_mem {g : String} {rows : List Row}
    (h : g ∈ rows.map rowGid) :
    ∃ r, lastRowWith g rows = some r ∧ rowGid r = g := by
  obtain ⟨r, hr, hgid⟩ := List.mem_map.mp h
  have hne : rows.filter (fun x => rowGid x == g) ≠ [] := by
    intro hnil
    have := List.filter_eq_nil_iff.mp hnil r hr
    simp [hgid] at this
  have hsome := List.getLast?_isSome.mpr hne
  cases hf : (rows.filter (fun x => rowGid x == g)).getLast? with
  | none => rw [hf] at hsome; simp at hsome
  | some r0 =>
    refine ⟨r0, hf, ?_⟩
    have hmem : r0 ∈ rows.filter (fun x => rowGid x == g) := by
      have : r0 ∈ (rows.filter (fun x => rowGid x == g)).reverse.head? :=
        by rw [List.head?_reverse, hf]; exact rfl
      exact List.mem_reverse.mp (List.mem_of_mem_head? this)
    have := (List.mem_filter.mp hmem).2
    simpa using this

theorem lastRowWith_eq_none {g : String} {rows : List Row}
    (h : g ∉ rows.map rowGid) : lastRowWith g rows = none := by
  rw [lastRowWith]
  have : rows.filter (fun x => rowGid x == g) = [] := by
    refine List.filter_eq_nil_iff.mpr ?_
    intro r hr
    intro hbeq
    exact h (List.mem_map.mpr ⟨r, hr, by simpa using hbeq⟩)
  rw [this]; rfl

/-! ## Cell arithmetic lemmas -/

theorem cellAdd_num {a b : Cell} {qa qb : Rat}
    (ha : a.toNum? = some qa) (hb : b.toNum? = some qb) :
    ∃ v, cellAdd a b = .ok v ∧ v.toNum? = some (qa + qb) := by
  cases a <;> cases b <;> simp [Cell.toNum?] at ha hb <;>
    simp [cellAdd, Cell.toNum?, ← ha, ← hb]

theorem cellSub_num {a b : Cell} {qa qb : Rat}
    (ha : a.toNum? = some qa) (hb : b.toNum? = some qb) :
    ∃ v, cellSub a b = .ok v ∧ v.toNum? = some (qa - qb) := by
  cases a <;> cases b <;> simp [Cell.toNum?] at ha hb <;>
    simp [cellSub, Cell.toNum?, ← ha, ← hb]

theorem cellMax0_num {v : Cell} {q : Rat} (h : v.toNum? = some q) :
    ∃ w, cellMax0 v = .ok w ∧ w.toNum? = some (max 0 q) := by
  cases v with
  | intV n =>
    simp [Cell.toNum?] at h
    refine ⟨.intV (max 0 n), rfl, ?_⟩
    simp [Cell.toNum?, ← h, Int.cast_max]
  | ratV q0 =>
    simp [Cell.toNum?] at h
    subst h
    by_cases hq : 0 < q0
    · refine ⟨.ratV q0, by simp [cellMax0, hq], ?_⟩
      simp [Cell.toNum?, max_eq_right (le_of_lt hq)]
    · refine ⟨.intV 0, by simp [cellMax0, hq], ?_⟩
      simp [Cell.toNum?, max_eq_left (le_of_not_lt hq)]
  | strV s => simp [Cell.toNum?] at h
  | dateV y m d => simp [Cell.toNum?] at h

/-! ## exMapM congruence and ilocCol lemmas -/

theorem exMapM_congr {α β : Type _} {f g : α → Except String β} :
    ∀ {l : List α}, (∀ a ∈ l, f a = g a) → exMapM f l = exMapM g l := by
  intro l
  induction l with
  | nil => intro _; rfl
  | cons x l ih =>
    intro h
    rw [exMapM, exMapM, h x (List.mem_cons_self x l),
      ih (fun a ha => h a (List.mem_cons_of_mem x ha))]

theorem ilocCol_ok_mem {cols : List String} {i : Int} {c : String}
    (h : ilocCol cols i = .ok c) : c ∈ cols := by
  rw [ilocCol] at h
  by_cases hneg : pyIndex (cols.length : Int) i < 0
  · rw [if_pos hneg] at h; simp at h
  · rw [if_neg hneg] at h
    cases hidx : cols[(pyIndex (cols.length : Int) i).toNat]? with
    | none => rw [hidx] at h; simp at h
    | some c0 =>
      rw [hidx] at h
      cases h
      obtain ⟨hlt, hval⟩ := List.getElem?_eq_some.mp hidx
      exact hval ▸ List.getElem_mem hlt

theorem ilocCol_nonneg {cols : List String} {i : Int}
    (h0 : 0 ≤ i) (hlt : i < (cols.length : Int)) :
    ilocCol cols i = .ok (cols.getD i.toNat "") := by
  have hpy : pyIndex (cols.length : Int) i = i := if_neg (not_lt.mpr h0)
  have hnat : i.toNat < cols.length := (Int.toNat_lt h0).mpr hlt
  rw [ilocCol, hpy, if_neg (not_lt.mpr h0), List.getElem?_eq_getElem hnat,
    List.getD_eq_getElem?_getD, List.getElem?_eq_getElem hnat]
  rfl

/-! ## Claim theorems -/

/-- C8: in the union step, an empty derived dataset M yields S unchanged, an
empty second-date partition S yields M unchanged, and two empty inputs yield
an empty dataset; none of these edge cases produces an error (lines 269-279
of src/merge_excel.py). -/
theorem c8_union_empty_cases (m s : List Row) (ncols : List String) :
    unionStep [] s ncols = .ok s ∧ unionStep m [] ncols = .ok m ∧
    unionStep ([] : List Row) ([] : List Row) ncols = .ok ([] : List Row) := by
  refine ⟨by rw [unionStep]; rfl, ?_, by rw [unionStep]; rfl⟩
  rw [unionStep]
  by_cases hm : m.isEmpty
  · rw [if_pos hm, List.isEmpty_iff.mp hm]
  · rw [if_neg hm]
    rfl

/-- C5: the composite entity key is invariant to whether an identifier field
is stored as a Python int or as its text form with surrounding whitespace:
both render to the same stripped string before the join (create_group_id,
lines 58-67). -/
theorem c5_key_determinism (cols : List String) (r1 r2 : Row)
    (h : ∀ c ∈ groupingColumns, ∃ n str0, r1.get? c = some (.intV n) ∧
         r2.get? c = some (.strV str0) ∧ pyStrip str0 = pyStrip (toString n)) :
    createGroupId cols r1 = createGroupId cols r2 := by
  have hm : exMapM (keyPart cols r1) groupingColumns
      = exMapM (keyPart cols r2) groupingColumns := by
    refine exMapM_congr ?_
    intro c hc
    obtain ⟨n, str0, h1, h2, h3⟩ := h c hc
    by_cases hcol : cols.contains c
    · simp [keyPart, hcol, h1, h2, Cell.pyStr, h3]
    · have hcol2 : c ∉ cols := by simpa using hcol
      simp [keyPart, hcol2]
  rw [createGroupId, createGroupId, hm]

/-- Witness for C5: the id 123 stored as a number and as the padded text
"123 " produce identical keys. -/
theorem c5_key_determinism_witness :
    createGroupId ["书籍ID", "渠道ID", "Ad Group ID", "Ad ID"]
      [("书籍ID", .intV 123), ("渠道ID", .intV 45),
       ("Ad Group ID", .intV 6), ("Ad ID", .intV 7)]
    = createGroupId ["书籍ID", "渠道ID", "Ad Group ID", "Ad ID"]
      [("书籍ID", .strV "123 "), ("渠道ID", .strV " 45"),
       ("Ad Group ID", .strV "6"), ("Ad ID", .strV " 7 ")] := by
  refine c5_key_determinism _ _ _ ?_
  intro c hc
  simp only [groupingColumns, List.mem_cons, List.not_mem_nil, or_false] at hc
  rcases hc with rfl | rfl | rfl | rfl
  · exact ⟨123, "123 ", by decide, by decide, by decide⟩
  · exact ⟨45, " 45", by decide, by decide, by decide⟩
  · exact ⟨6, "6", by decide, by decide, by decide⟩
  · exact ⟨7, " 7 ", by decide, by decide, by decide⟩

/-- C7 counterexample: the reconciliation stage does raise for a missing
column.  A table 1 whose schema lacks the grouping column Ad ID makes
create_group_id's frame selection raise KeyError (line 67 via line 70), so
the stage aborts instead of skipping the column. -/
theorem c7_missing_column_raises :
    reconcile (⟨["书籍ID", "渠道ID", "Ad Group ID", "日期"], []⟩ : DF)
      (⟨["书籍ID", "渠道ID", "Ad Group ID", "Ad ID", "日期"], []⟩ : DF)
      ⟨2025, 5, 20⟩ ⟨2025, 5, 21⟩ = .error "KeyError" := by rfl

/-- C7 amended: the union-step summation loop (lines 213-215) does skip
columns missing from either row without raising; it is the key construction
and the value-extraction loops that raise KeyError on missing columns. -/
theorem c7_summation_skips_missing (mrow srow : Row) (ncols : List String)
    (h : ∀ c ∈ ncols, mrow.get? c = none ∨ srow.get? c = none) :
    combineRow mrow srow ncols = .ok mrow := by
  rw [combineRow]
  refine updateCols_skip_all ?_
  intro c hc
  rcases h c hc with hm | hs
  · simp [hm]
  · cases hg : mrow.get? c <;> simp [hg, hs]

/-- Witness for C7 amended: summing rows that both lack the numeric column x
leaves the midnight row unchanged and does not raise. -/
theorem c7_summation_skips_missing_witness :
    combineRow [("spend", .intV 5)] [("d0", .intV 7)] ["x"]
      = .ok [("spend", .intV 5)] :=
  c7_summation_skips_missing _ _ _ (by decide)

/-- C10 counterexample: an index outside the valid column range is not always
ignored.  On a three-column frame the caller index -5 passes the only filter
in the source (i < len(columns)) and .iloc then raises IndexError, and the
index -1 selects the last column instead of being ignored. -/
theorem c10_negative_index_not_ignored :
    outputProjection ["a", "b", "c"] (⟨["a", "b", "c"], []⟩ : DF)
      (some [-5]) ⟨2025, 5, 21⟩ = .error "IndexError" ∧
    outputProjection ["a", "b", "c"] (⟨["a", "b", "c"], []⟩ : DF)
      (some [-1]) ⟨2025, 5, 21⟩ = .ok (⟨["c", "日期"], []⟩ : DF) := by
  exact ⟨rfl, rfl⟩

/-- C10 amended: for caller indices that are all non-negative, indices at or
beyond the column count are dropped; if no index below the column count
remains the full column set is kept, and otherwise exactly the columns at the
remaining valid positions are selected. -/
theorem c10_target_selection_nonneg (df : DF) (tc : List Int)
    (h0 : ∀ i ∈ tc, 0 ≤ i) :
    applyTarget df (some tc) =
      .ok (if (tc.filter (fun i => i < (df.cols.length : Int))).isEmpty then df
           else df.selectCols ((tc.filter (fun i => i < (df.cols.length : Int))).map
             (fun i => df.cols.getD i.toNat ""))) := by
  rw [applyTarget]
  by_cases hv : (tc.filter (fun i => i < (df.cols.length : Int))).isEmpty
  · rw [if_pos hv, if_pos hv]
  · rw [if_neg hv, if_neg hv]
    have hmm : exMapM (ilocCol df.cols) (tc.filter (fun i => i < (df.cols.length : Int)))
        = .ok ((tc.filter (fun i => i < (df.cols.length : Int))).map
            (fun i => df.cols.getD i.toNat "")) := by
      refine exMapM_ok_of_map ?_
      intro i hi
      have hi0 : 0 ≤ i := h0 i (List.mem_of_mem_filter hi)
      have hilt : i < (df.cols.length : Int) := by
        have := (List.mem_filter.mp hi).2
        simpa using this
      exact ilocCol_nonneg hi0 hilt
    rw [hmm]
    rfl

/-- Witness for C10 amended: indices [0, 2, 5] on a three-column frame keep
exactly the columns at positions 0 and 2. -/
theorem c10_target_selection_nonneg_witness :
    applyTarget (⟨["a", "b", "c"], []⟩ : DF) (some [0, 2, 5]) =
      .ok (if (([0, 2, 5] : List Int).filter
              (fun i => i < (((⟨["a", "b", "c"], []⟩ : DF)).cols.length : Int))).isEmpty
           then (⟨["a", "b", "c"], []⟩ : DF)
           else DF.selectCols (⟨["a", "b", "c"], []⟩ : DF)
             ((([0, 2, 5] : List Int).filter
                (fun i => i < (((⟨["a", "b", "c"], []⟩ : DF)).cols.length : Int))).map
               (fun i => ((⟨["a", "b", "c"], []⟩ : DF)).cols.getD i.toNat ""))) :=
  c10_target_selection_nonneg _ _ (by decide)

theorem applyTarget_cols_sub {df res : DF} {t : Option (List Int)}
    (h : applyTarget df t = .ok res) : ∀ c ∈ res.cols, c ∈ df.cols := by
  cases t with
  | none => rw [applyTarget] at h; cases h; exact fun c hc => hc
  | some tc =>
    rw [applyTarget] at h
    by_cases hv : (tc.filter (fun i => i < (df.cols.length : Int))).isEmpty
    · rw [if_pos hv] at h; cases h; exact fun c hc => hc
    · rw [if_neg hv] at h
      cases hmm : exMapM (ilocCol df.cols)
          (tc.filter (fun i => i < (df.cols.length : Int))) with
      | error e => rw [hmm] at h; simp at h
      | ok cols2 =>
        rw [hmm, exMap_ok] at h
        cases h
        intro c hc
        obtain ⟨i, _, hok⟩ := exMapM_ok_forall hmm hc
        exact ilocCol_ok_mem hok

theorem applyTarget_get?_none {df res : DF} {t : Option (List Int)} {c : String}
    (h : applyTarget df t = .ok res)
    (hrows : ∀ r ∈ df.rows, Row.get? r c = none)
    (hcols : c ∉ df.cols) : ∀ r ∈ res.rows, Row.get? r c = none := by
  cases t with
  | none => rw [applyTarget] at h; cases h; exact hrows
  | some tc =>
    rw [applyTarget] at h
    by_cases hv : (tc.filter (fun i => i < (df.cols.length : Int))).isEmpty
    · rw [if_pos hv] at h; cases h; exact hrows
    · rw [if_neg hv] at h
      cases hmm : exMapM (ilocCol df.cols)
          (tc.filter (fun i => i < (df.cols.length : Int))) with
      | error e => rw [hmm] at h; simp at h
      | ok cols2 =>
        rw [hmm, exMap_ok] at h
        cases h
        intro r hr
        obtain ⟨r0, _, rfl⟩ := List.mem_map.mp hr
        refine Row.get?_restrict_not_mem r0 ?_
        intro hcc
        obtain ⟨i, _, hok⟩ := exMapM_ok_forall hmm hcc
        exact hcols (ilocCol_ok_mem hok)

/-- C6: whatever the reconciled dataset and the caller's target-column
choice, the emitted projection carries neither the group_id column nor the
clean_date column (at schema level and in every row) and every row's 日期
field is stamped with the display form of the day after the second date
(lines 441-472). -/
theorem c6_projection_strips_and_stamps (combinedCols : List String)
    (fullDay : DF) (target : Option (List Int)) (secondDate : Date) (res : DF)
    (hok : outputProjection combinedCols fullDay target secondDate = .ok res) :
    "group_id" ∉ res.cols ∧ "clean_date" ∉ res.cols ∧
    ∀ r ∈ res.rows, Row.get? r "group_id" = none ∧
      Row.get? r "clean_date" = none ∧
      Row.get? r "日期" = some (.strV (formatDateDisplay (nextDay secondDate))) := by
  simp only [outputProjection] at hok
  cases hap : applyTarget
      (reorderCols ((fullDay.dropCol "clean_date").dropCol "group_id") combinedCols)
      target with
  | error e => rw [hap] at hok; simp at hok
  | ok d3 =>
    rw [hap] at hok
    simp only [exBind_ok, exPure, Except.ok.injEq] at hok
    have hd1 : ∀ c, c ∈ ((fullDay.dropCol "clean_date").dropCol "group_id").cols →
        c ≠ "group_id" ∧ c ≠ "clean_date" := by
      intro c hc
      simp only [DF.dropCol] at hc
      have h2 := List.mem_filter.mp hc
      have h3 := List.mem_filter.mp h2.1
      exact ⟨by simpa using h2.2, by simpa using h3.2⟩
    have hd2 : ∀ c, c ∈ (reorderCols ((fullDay.dropCol "clean_date").dropCol "group_id")
        combinedCols).cols → c ≠ "group_id" ∧ c ≠ "clean_date" := by
      intro c hc
      simp only [reorderCols, DF.selectCols] at hc
      have := List.mem_filter.mp hc
      exact hd1 c (by simpa using this.2)
    have hd3 : ∀ c, c ∈ d3.cols → c ≠ "group_id" ∧ c ≠ "clean_date" :=
      fun c hc => hd2 c (applyTarget_cols_sub hap c hc)
    have hrows3 : ∀ cn, cn = "group_id" ∨ cn = "clean_date" →
        ∀ r ∈ d3.rows, Row.get? r cn = none := by
      intro cn hcn
      refine applyTarget_get?_none hap ?_ ?_
      · intro r hr
        simp only [reorderCols, DF.selectCols] at hr
        obtain ⟨r0, _, rfl⟩ := List.mem_map.mp hr
        refine Row.get?_restrict_not_mem r0 ?_
        intro hmem
        rcases hcn with rfl | rfl
        · exact (hd2 _ hmem).1 rfl
        · exact (hd2 _ hmem).2 rfl
      · intro hmem
        rcases hcn with rfl | rfl
        · exact (hd2 _ hmem).1 rfl
        · exact (hd2 _ hmem).2 rfl
    subst hok
    refine ⟨?_, ?_, ?_⟩
    · intro hmem
      simp only [DF.setCol] at hmem
      by_cases hday : d3.cols.contains "日期"
      · rw [if_pos hday] at hmem
        exact (hd3 _ hmem).1 rfl
      · rw [if_neg hday] at hmem
        rcases List.mem_append.mp hmem with hmem | hmem
        · exact (hd3 _ hmem).1 rfl
        · simp at hmem
    · intro hmem
      simp only [DF.setCol] at hmem
      by_cases hday : d3.cols.contains "日期"
      · rw [if_pos hday] at hmem
        exact (hd3 _ hmem).2 rfl
      · rw [if_neg hday] at hmem
        rcases List.mem_append.mp hmem with hmem | hmem
        · exact (hd3 _ hmem).2 rfl
        · simp at hmem
    · intro r hr
      simp only [DF.setCol] at hr
      obtain ⟨r0, hr0, rfl⟩ := List.mem_map.mp hr
      refine ⟨?_, ?_, ?_⟩
      · rw [Row.get?_set_ne r0 _ (by decide)]
        exact hrows3 "group_id" (Or.inl rfl) r0 hr0
      · rw [Row.get?_set_ne r0 _ (by decide)]
        exact hrows3 "clean_date" (Or.inr rfl) r0 hr0
      · exact Row.get?_set_self r0 _ _

/-- Witness for C6 on a one-row reconciled dataset with target = none. -/
theorem c6_projection_strips_and_stamps_witness :
    "group_id" ∉ (⟨["日期", "spend"],
      [[("日期", Cell.strV "2025-05-22(Thu)"), ("spend", Cell.intV 5)]]⟩ : DF).cols ∧
    "clean_date" ∉ (⟨["日期", "spend"],
      [[("日期", Cell.strV "2025-05-22(Thu)"), ("spend", Cell.intV 5)]]⟩ : DF).cols ∧
    ∀ r ∈ (⟨["日期", "spend"],
      [[("日期", Cell.strV "2025-05-22(Thu)"), ("spend", Cell.intV 5)]]⟩ : DF).rows,
      Row.get? r "group_id" = none ∧ Row.get? r "clean_date" = none ∧
      Row.get? r "日期" = some (.strV (formatDateDisplay (nextDay ⟨2025, 5, 21⟩))) :=
  c6_projection_strips_and_stamps
    ["日期", "spend", "group_id", "clean_date"]
    (⟨["日期", "spend", "group_id", "clean_date"],
      [[("日期", Cell.strV "2025-05-21(Wed)"), ("spend", Cell.intV 5),
        ("group_id", Cell.strV "k"), ("clean_date", Cell.dateV 2025 5 21)]]⟩ : DF)
    none ⟨2025, 5, 21⟩ _ rfl

/-! ## Derive-step characterization -/

theorem getLast?_mem {α : Type _} {l : List α} {a : α}
    (h : l.getLast? = some a) : a ∈ l := by
  have hh : a ∈ l.reverse.head? := by rw [List.head?_reverse, h]; rfl
  exact List.mem_reverse.mp (List.mem_of_mem_head? hh)

theorem lastRowWith_gid_mem {g : String} {rows : List Row} {r : Row}
    (h : lastRowWith g rows = some r) : g ∈ rows.map rowGid := by
  rw [lastRowWith] at h
  have hmem := getLast?_mem h
  have h2 := List.mem_filter.mp hmem
  exact List.mem_map.mpr ⟨r, h2.1, by simpa using h2.2⟩

theorem firstRowWith_gid {g : String} {rows : List Row} {r : Row}
    (h : firstRowWith g rows = some r) : rowGid r = g := by
  rw [firstRowWith] at h
  simpa using List.find?_some h

theorem rowGid_eq_of_get?_eq {r r2 : Row}
    (h : Row.get? r "group_id" = Row.get? r2 "group_id") : rowGid r = rowGid r2 := by
  rw [rowGid, rowGid, h]

theorem deriveMidnight_ok_fold {t1first cfirst : List Row} {ncols : List String}
    {dd cd : Cell} {out : List Row}
    (hok : deriveMidnight t1first cfirst ncols dd cd = .ok out) :
    deriveFold (deriveRowStep t1first cfirst ncols dd cd)
      (firstDedup (cfirst.map rowGid)) [] = .ok out := by
  rw [deriveMidnight] at hok
  cases hc1 : extractAllCheck t1first ncols with
  | error e => rw [hc1] at hok; simp at hok
  | ok u =>
    rw [hc1] at hok
    cases hc2 : extractAllCheck cfirst ncols with
    | error e => rw [hc2] at hok; simp at hok
    | ok u2 => rw [hc2] at hok; simpa using hok

theorem deriveRowStep_no_match {t1first cfirst : List Row} {ncols : List String}
    {dd cd : Cell} {g : String} {r0 cl : Row}
    (hr0 : firstRowWith g cfirst = some r0) (hcl : lastRowWith g cfirst = some cl)
    (hno : lastRowWith g t1first = none) :
    deriveRowStep t1first cfirst ncols dd cd g =
      .ok (some ((r0.set "日期" dd).set "clean_date" cd)) := by
  simp only [deriveRowStep, hr0, hcl, hno]

theorem deriveRowStep_match {t1first cfirst : List Row} {ncols : List String}
    {dd cd : Cell} {g : String} {r0 cl tl : Row}
    (hr0 : firstRowWith g cfirst = some r0) (hcl : lastRowWith g cfirst = some cl)
    (htl : lastRowWith g t1first = some tl) :
    deriveRowStep t1first cfirst ncols dd cd g =
      (updateCols (fun c => do
        let d ← cellSub ((cl.get? c).getD (.intV 0)) ((tl.get? c).getD (.intV 0))
        let d' ← if ratioLike c then pure d else cellMax0 d
        pure (some d')) ncols ((r0.set "日期" dd).set "clean_date" cd)).map some := by
  simp only [deriveRowStep, hr0, hcl, htl]

/-- The derived row for a key matched in both partitions: it is in the output
and its group id is intact. -/
theorem deriveMidnight_match_exists {t1first cfirst : List Row}
    {ncols : List String} {dd cd : Cell} {out : List Row} {g : String}
    {r0 cl tl : Row}
    (hok : deriveMidnight t1first cfirst ncols dd cd = .ok out)
    (hgidn : "group_id" ∉ ncols)
    (hr0 : firstRowWith g cfirst = some r0) (hcl : lastRowWith g cfirst = some cl)
    (htl : lastRowWith g t1first = some tl) :
    ∃ w ∈ out, rowGid w = g ∧
      updateCols (fun c => do
        let d ← cellSub ((cl.get? c).getD (.intV 0)) ((tl.get? c).getD (.intV 0))
        let d' ← if ratioLike c then pure d else cellMax0 d
        pure (some d')) ncols ((r0.set "日期" dd).set "clean_date" cd) = .ok w := by
  have hfold := deriveMidnight_ok_fold hok
  have hg : g ∈ cfirst.map rowGid := lastRowWith_gid_mem hcl
  have hgdedup : g ∈ firstDedup (cfirst.map rowGid) := (mem_firstDedup _ g).mpr hg
  obtain ⟨res, hstep, hres⟩ := deriveFold_ok_mem hfold hgdedup
  rw [deriveRowStep_match hr0 hcl htl] at hstep
  cases hup : updateCols (fun c => do
      let d ← cellSub ((cl.get? c).getD (.intV 0)) ((tl.get? c).getD (.intV 0))
      let d' ← if ratioLike c then pure d else cellMax0 d
      pure (some d')) ncols ((r0.set "日期" dd).set "clean_date" cd) with
  | error e => rw [hup] at hstep; simp at hstep
  | ok w =>
    rw [hup, exMap_ok] at hstep
    cases hstep
    refine ⟨w, hres w rfl, ?_, rfl⟩
    have hw0 : Row.get? w "group_id"
        = Row.get? ((r0.set "日期" dd).set "clean_date" cd) "group_id" :=
      updateCols_ok_not_mem hup hgidn
    have hw1 : Row.get? ((r0.set "日期" dd).set "clean_date" cd) "group_id"
        = Row.get? r0 "group_id" := by
      rw [Row.get?_set_ne _ _ (by decide), Row.get?_set_ne _ _ (by decide)]
    rw [rowGid_eq_of_get?_eq (hw0.trans hw1)]
    exact firstRowWith_gid hr0

/-- C1 counterexample: a combined-first (B1) record whose key "k" has no
match in table 1 (A1, which only holds key "j") is not dropped: the derive
step emits a row for "k" carrying B1's raw numeric value (line 166 appends
unconditionally, outside the line 158 guard). -/
theorem c1_unmatched_key_not_dropped :
    ("k" ∉ ([[("group_id", Cell.strV "j"), ("日期", Cell.strV "old"),
        ("spend", Cell.intV 3)]] : List Row).map rowGid) ∧
    deriveMidnight
      [[("group_id", Cell.strV "j"), ("日期", Cell.strV "old"), ("spend", Cell.intV 3)]]
      [[("group_id", Cell.strV "k"), ("日期", Cell.strV "old"), ("spend", Cell.intV 10)]]
      ["spend"] (Cell.strV "D2") (Cell.strV "cd")
    = .ok [[("group_id", Cell.strV "k"), ("日期", Cell.strV "D2"),
            ("spend", Cell.intV 10), ("clean_date", Cell.strV "cd")]] ∧
    rowGid [("group_id", Cell.strV "k"), ("日期", Cell.strV "D2"),
            ("spend", Cell.intV 10), ("clean_date", Cell.strV "cd")] = "k" :=
  ⟨by decide, rfl, rfl⟩

/-- C1 amended: a B1 record whose key has no match in A1 is kept in the
derived dataset, as the key's first B1 row with only its date fields
re-labeled (numeric values untouched), rather than being dropped. -/
theorem c1_unmatched_keys_kept (t1first cfirst : List Row) (ncols : List String)
    (dd cd : Cell) (out : List Row) (g : String)
    (hok : deriveMidnight t1first cfirst ncols dd cd = .ok out)
    (hg : g ∈ cfirst.map rowGid) (hno : g ∉ t1first.map rowGid) :
    ∃ r0, firstRowWith g cfirst = some r0 ∧
      ((r0.set "日期" dd).set "clean_date" cd) ∈ out := by
  have hfold := deriveMidnight_ok_fold hok
  obtain ⟨r0, hr0, _⟩ := firstRowWith_some_of_mem hg
  obtain ⟨cl, hcl, _⟩ := lastRowWith_some_of_mem hg
  have hgdedup : g ∈ firstDedup (cfirst.map rowGid) := (mem_firstDedup _ g).mpr hg
  obtain ⟨res, hstep, hres⟩ := deriveFold_ok_mem hfold hgdedup
  rw [deriveRowStep_no_match hr0 hcl (lastRowWith_eq_none hno)] at hstep
  cases hstep
  exact ⟨r0, hr0, hres _ rfl⟩

/-- Witness for C1 amended, at the inputs of the counterexample. -/
theorem c1_unmatched_keys_kept_witness :
    ∃ r0, firstRowWith "k"
      [[("group_id", Cell.strV "k"), ("日期", Cell.strV "old"),
        ("spend", Cell.intV 10)]] = some r0 ∧
      ((r0.set "日期" (Cell.strV "D2")).set "clean_date" (Cell.strV "cd")) ∈
        [[("group_id", Cell.strV "k"), ("日期", Cell.strV "D2"),
          ("spend", Cell.intV 10), ("clean_date", Cell.strV "cd")]] :=
  c1_unmatched_keys_kept
    [[("group_id", Cell.strV "j"), ("日期", Cell.strV "old"), ("spend", Cell.intV 3)]]
    [[("group_id", Cell.strV "k"), ("日期", Cell.strV "old"), ("spend", Cell.intV 10)]]
    ["spend"] (Cell.strV "D2") (Cell.strV "cd") _ "k" rfl (by decide) (by decide)

/-- C3: for a key matched in both B1 and A1 and a numeric column, the derived
value is the signed difference B1[col] - A1[col] when the lower-cased column
name carries a rate/ratio/ROAS marker, and max(0, B1[col] - A1[col]) (hence
never negative) otherwise (lines 157-164).  Under duplicate keys the
operative B1/A1 values are those of the key's last row, per the value dicts
of lines 131-142. -/
theorem c3_subtraction_floor (t1first cfirst : List Row) (ncols : List String)
    (dd cd : Cell) (out : List Row) (g c : String) (cl tl : Row) (a b : Cell)
    (qa qb : Rat)
    (hok : deriveMidnight t1first cfirst ncols dd cd = .ok out)
    (hn : ncols.Nodup) (hgidn : "group_id" ∉ ncols)
    (hcl : lastRowWith g cfirst = some cl) (htl : lastRowWith g t1first = some tl)
    (hc : c ∈ ncols) (ha : cl.get? c = some a) (hb : tl.get? c = some b)
    (hqa : a.toNum? = some qa) (hqb : b.toNum? = some qb) :
    ∃ w ∈ out, rowGid w = g ∧ ∃ v, w.get? c = some v ∧
      v.toNum? = some (if ratioLike c then qa - qb else max 0 (qa - qb)) ∧
      (ratioLike c = false → ∀ q, v.toNum? = some q → 0 ≤ q) := by
  obtain ⟨r0, hr0, _⟩ :=
    firstRowWith_some_of_mem (lastRowWith_gid_mem hcl)
  obtain ⟨w, hw, hwg, hup⟩ := deriveMidnight_match_exists hok hgidn hr0 hcl htl
  obtain ⟨sv, hsv, hsvn⟩ := cellSub_num hqa hqb
  by_cases hrl : ratioLike c
  · have hu : (do
        let d ← cellSub ((cl.get? c).getD (.intV 0)) ((tl.get? c).getD (.intV 0))
        let d' ← if ratioLike c then pure d else cellMax0 d
        pure (some d')) = Except.ok (some sv) := by
      simp [ha, hb, hsv, hrl]
    refine ⟨w, hw, hwg, sv, updateCols_ok_mem hn hc hu hup, ?_, ?_⟩
    · rw [hsvn, if_pos hrl]
    · intro hf; rw [hrl] at hf; cases hf
  · obtain ⟨mv, hmv, hmvn⟩ := cellMax0_num hsvn
    have hu : (do
        let d ← cellSub ((cl.get? c).getD (.intV 0)) ((tl.get? c).getD (.intV 0))
        let d' ← if ratioLike c then pure d else cellMax0 d
        pure (some d')) = Except.ok (some mv) := by
      simp [ha, hb, hsv, hrl, hmv]
    refine ⟨w, hw, hwg, mv, updateCols_ok_mem hn hc hu hup, ?_, ?_⟩
    · rw [hmvn, if_neg hrl]
    · intro _ q hq
      rw [hmvn] at hq
      cases hq
      exact le_max_left 0 _

/-- Witness for C3: key "k" with B1 spend 1 vs A1 spend 5 floors to 0, while
the rate-marked column keeps the signed 1 - 5 = -4. -/
theorem c3_subtraction_floor_witness :
    (∃ w ∈ ([[("group_id", Cell.strV "k"), ("日期", Cell.strV "D"),
        ("spend", Cell.intV 0), ("rate_x", Cell.intV (-4)),
        ("clean_date", Cell.strV "c")]] : List Row), rowGid w = "k" ∧
      ∃ v, w.get? "spend" = some v ∧
        v.toNum? = some (if ratioLike "spend" then (1 : Rat) - 5
          else max 0 ((1 : Rat) - 5)) ∧
        (ratioLike "spend" = false → ∀ q, v.toNum? = some q → 0 ≤ q)) ∧
    (∃ w ∈ ([[("group_id", Cell.strV "k"), ("日期", Cell.strV "D"),
        ("spend", Cell.intV 0), ("rate_x", Cell.intV (-4)),
        ("clean_date", Cell.strV "c")]] : List Row), rowGid w = "k" ∧
      ∃ v, w.get? "rate_x" = some v ∧
        v.toNum? = some (if ratioLike "rate_x" then (1 : Rat) - 5
          else max 0 ((1 : Rat) - 5)) ∧
        (ratioLike "rate_x" = false → ∀ q, v.toNum? = some q → 0 ≤ q)) := by
  constructor
  · exact c3_subtraction_floor
      [[("group_id", Cell.strV "k"), ("日期", Cell.strV "old"),
        ("spend", Cell.intV 5), ("rate_x", Cell.intV 5)]]
      [[("group_id", Cell.strV "k"), ("日期", Cell.strV "old"),
        ("spend", Cell.intV 1), ("rate_x", Cell.intV 1)]]
      ["spend", "rate_x"] (Cell.strV "D") (Cell.strV "c") _ "k" "spend" _ _
      (Cell.intV 1) (Cell.intV 5) 1 5 rfl (by decide) (by decide) rfl rfl
      (by decide) rfl rfl rfl rfl
  · exact c3_subtraction_floor
      [[("group_id", Cell.strV "k"), ("日期", Cell.strV "old"),
        ("spend", Cell.intV 5), ("rate_x", Cell.intV 5)]]
      [[("group_id", Cell.strV "k"), ("日期", Cell.strV "old"),
        ("spend", Cell.intV 1), ("rate_x", Cell.intV 1)]]
      ["spend", "rate_x"] (Cell.strV "D") (Cell.strV "c") _ "k" "rate_x" _ _
      (Cell.intV 1) (Cell.intV 5) 1 5 rfl (by decide) (by decide) rfl rfl
      (by decide) rfl rfl rfl rfl

/-- C9 counterexample: with a duplicated key "k" in the B1 partition (first
row spend 10, last row spend 99) and A1 spend 1, the derived numeric value is
99 - 1 = 98 (the dict overwrite keeps the last row), not 10 - 1 = 9 as
first-seen numeric values would give; the metadata still comes from the first
row. -/
theorem c9_last_row_values_win :
    deriveMidnight
      [[("group_id", Cell.strV "k"), ("spend", Cell.intV 1)]]
      [[("group_id", Cell.strV "k"), ("spend", Cell.intV 10), ("meta", Cell.strV "first")],
       [("group_id", Cell.strV "k"), ("spend", Cell.intV 99), ("meta", Cell.strV "second")]]
      ["spend"] (Cell.strV "D2") (Cell.strV "cd")
    = .ok [[("group_id", Cell.strV "k"), ("spend", Cell.intV 98),
            ("meta", Cell.strV "first"), ("日期", Cell.strV "D2"),
            ("clean_date", Cell.strV "cd")]] ∧
    Row.get? [("group_id", Cell.strV "k"), ("spend", Cell.intV 98),
      ("meta", Cell.strV "first"), ("日期", Cell.strV "D2"),
      ("clean_date", Cell.strV "cd")] "spend" ≠ some (Cell.intV 9) :=
  ⟨rfl, by decide⟩

/-- C9 amended: duplicate keys do not make the derive step fail; the derived
row's metadata (columns outside the numeric set and the relabeled date
fields) comes from the key's first-seen row, but its numeric values are
computed from the key's last-seen rows in both partitions, because the value
dicts of lines 131-142 overwrite on every occurrence. -/
theorem c9_duplicate_key_lookups (t1first cfirst : List Row)
    (ncols : List String) (dd cd : Cell) (out : List Row) (g : String)
    (r0 cl tl : Row)
    (hok : deriveMidnight t1first cfirst ncols dd cd = .ok out)
    (hn : ncols.Nodup) (hgidn : "group_id" ∉ ncols)
    (hr0 : firstRowWith g cfirst = some r0) (hcl : lastRowWith g cfirst = some cl)
    (htl : lastRowWith g t1first = some tl) :
    ∃ w ∈ out, rowGid w = g ∧
      (∀ c, c ∉ ncols → c ≠ "日期" → c ≠ "clean_date" →
        w.get? c = r0.get? c) ∧
      (∀ c ∈ ncols, ∀ a b qa qb, cl.get? c = some a → tl.get? c = some b →
        a.toNum? = some qa → b.toNum? = some qb →
        ∃ v, w.get? c = some v ∧
          v.toNum? = some (if ratioLike c then qa - qb else max 0 (qa - qb))) := by
  obtain ⟨w, hw, hwg, hup⟩ := deriveMidnight_match_exists hok hgidn hr0 hcl htl
  refine ⟨w, hw, hwg, ?_, ?_⟩
  · intro c hcn hcd hccd
    rw [updateCols_ok_not_mem hup hcn,
      Row.get?_set_ne _ _ hccd, Row.get?_set_ne _ _ hcd]
  · intro c hc a b qa qb ha hb hqa hqb
    obtain ⟨sv, hsv, hsvn⟩ := cellSub_num hqa hqb
    by_cases hrl : ratioLike c
    · have hu : (do
          let d ← cellSub ((cl.get? c).getD (.intV 0)) ((tl.get? c).getD (.intV 0))
          let d' ← if ratioLike c then pure d else cellMax0 d
          pure (some d')) = Except.ok (some sv) := by
        simp [ha, hb, hsv, hrl]
      exact ⟨sv, updateCols_ok_mem hn hc hu hup, by rw [hsvn, if_pos hrl]⟩
    · obtain ⟨mv, hmv, hmvn⟩ := cellMax0_num hsvn
      have hu : (do
          let d ← cellSub ((cl.get? c).getD (.intV 0)) ((tl.get? c).getD (.intV 0))
          let d' ← if ratioLike c then pure d else cellMax0 d
          pure (some d')) = Except.ok (some mv) := by
        simp [ha, hb, hsv, hrl, hmv]
      exact ⟨mv, updateCols_ok_mem hn hc hu hup, by rw [hmvn, if_neg hrl]⟩

/-- Witness for C9 amended, at the duplicated-key inputs of the
counterexample: metadata from the first row, numeric value 99 - 1. -/
theorem c9_duplicate_key_lookups_witness :
    ∃ w ∈ ([[("group_id", Cell.strV "k"), ("spend", Cell.intV 98),
        ("meta", Cell.strV "first"), ("日期", Cell.strV "D2"),
        ("clean_date", Cell.strV "cd")]] : List Row), rowGid w = "k" ∧
      (∀ c, c ∉ ["spend"] → c ≠ "日期" → c ≠ "clean_date" →
        w.get? c = Row.get? [("group_id", Cell.strV "k"), ("spend", Cell.intV 10),
          ("meta", Cell.strV "first")] c) ∧
      (∀ c ∈ ["spend"], ∀ a b qa qb,
        Row.get? [("group_id", Cell.strV "k"), ("spend", Cell.intV 99),
          ("meta", Cell.strV "second")] c = some a →
        Row.get? [("group_id", Cell.strV "k"), ("spend", Cell.intV 1)] c = some b →
        a.toNum? = some qa → b.toNum? = some qb →
        ∃ v, w.get? c = some v ∧
          v.toNum? = some (if ratioLike c then qa - qb else max 0 (qa - qb))) :=
  c9_duplicate_key_lookups
    [[("group_id", Cell.strV "k"), ("spend", Cell.intV 1)]]
    [[("group_id", Cell.strV "k"), ("spend", Cell.intV 10), ("meta", Cell.strV "first")],
     [("group_id", Cell.strV "k"), ("spend", Cell.intV 99), ("meta", Cell.strV "second")]]
    ["spend"] (Cell.strV "D2") (Cell.strV "cd") _ "k" _ _ _
    rfl (by decide) (by decide) rfl rfl rfl

/-! ## Union-step characterization -/

/-- The key sets of lines 179-181, as deduplicated key lists: keys of x that
are absent from y. -/
def keysOnly (x y : List Row) : List String :=
  (firstDedup (x.map rowGid)).filter (fun g => !((y.map rowGid).contains g))

/-- The key sets of lines 179-181: keys present in both x and y. -/
def keysCommon (x y : List Row) : List String :=
  (firstDedup (x.map rowGid)).filter (fun g => (y.map rowGid).contains g)

theorem unionStep_ok_parts {m s : List Row} {ncols : List String}
    {out : List Row} (hm : m ≠ []) (hs : s ≠ [])
    (hok : unionStep m s ncols = .ok out) :
    ∃ crows,
      exMapM (unionCombineStep m s ncols)
        ((firstDedup (m.map rowGid)).filter (fun g => (s.map rowGid).contains g))
        = .ok crows ∧
      out = m.filter (fun r => !((s.map rowGid).contains (rowGid r))) ++
            s.filter (fun r => !((m.map rowGid).contains (rowGid r))) ++ crows := by
  rw [unionStep, if_neg (by simpa [List.isEmpty_iff] using hm),
    if_neg (by simpa [List.isEmpty_iff] using hs)] at hok
  cases hmm : exMapM (unionCombineStep m s ncols)
      ((firstDedup (m.map rowGid)).filter (fun g => (s.map rowGid).contains g)) with
  | error e => rw [hmm] at hok; simp at hok
  | ok crows =>
    rw [hmm, exMap_ok] at hok
    cases hok
    exact ⟨crows, rfl, rfl⟩

theorem unionCombineStep_ok_elim {m s : List Row} {ncols : List String}
    {g : String} {r : Row} (h : unionCombineStep m s ncols g = .ok r) :
    ∃ mr sr, firstRowWith g m = some mr ∧ firstRowWith g s = some sr ∧
      combineRow mr sr ncols = .ok r := by
  rw [unionCombineStep] at h
  cases hmr : firstRowWith g m with
  | none => rw [hmr] at h; simp at h
  | some mr =>
    cases hsr : firstRowWith g s with
    | none => rw [hmr, hsr] at h; simp at h
    | some sr =>
      rw [hmr, hsr] at h
      exact ⟨mr, sr, rfl, rfl, h⟩

theorem unionCombineStep_ok_gid {m s : List Row} {ncols : List String}
    {g : String} {r : Row} (hgidn : "group_id" ∉ ncols)
    (h : unionCombineStep m s ncols g = .ok r) : rowGid r = g := by
  obtain ⟨mr, sr, hmr, _, hcomb⟩ := unionCombineStep_ok_elim h
  rw [combineRow] at hcomb
  rw [rowGid_eq_of_get?_eq (updateCols_ok_not_mem hcomb hgidn)]
  exact firstRowWith_gid hmr

/-- C2: for a key present in both the derived dataset M and the second-date
partition S, the union emits exactly one record with that key; its fields
outside the numeric set come from M's (first) copy of the row, and each
numeric column present in both rows holds M[col] + S[col], within the 0.001
tolerance the source's own check uses (lines 202-217). -/
theorem c2_union_additivity (m s : List Row) (ncols : List String) (g : String)
    (out : List Row) (hgidn : "group_id" ∉ ncols) (hn : ncols.Nodup)
    (hgm : g ∈ m.map rowGid) (hgs : g ∈ s.map rowGid)
    (hok : unionStep m s ncols = .ok out) :
    out.countP (fun r => rowGid r == g) = 1 ∧
    ∀ r ∈ out, rowGid r = g →
      ∃ mr sr, firstRowWith g m = some mr ∧ firstRowWith g s = some sr ∧
        (∀ c, c ∉ ncols → r.get? c = mr.get? c) ∧
        (∀ c ∈ ncols, ∀ a b qa qb, mr.get? c = some a → sr.get? c = some b →
          a.toNum? = some qa → b.toNum? = some qb →
          ∃ v qv, r.get? c = some v ∧ v.toNum? = some qv ∧
            |qv - (qa + qb)| < 1/1000) := by
  have hm : m ≠ [] := by
    intro hh
    subst hh
    simp at hgm
  have hs : s ≠ [] := by
    intro hh
    subst hh
    simp at hgs
  obtain ⟨crows, hmm, hout⟩ := unionStep_ok_parts hm hs hok
  have hcontg_s : (s.map rowGid).contains g = true := by simpa using hgs
  have hcontg_m : (m.map rowGid).contains g = true := by simpa using hgm
  constructor
  · subst hout
    rw [List.countP_append, List.countP_append]
    have hc1 : (m.filter (fun r => !((s.map rowGid).contains (rowGid r)))).countP
        (fun r => rowGid r == g) = 0 := by
      refine List.countP_eq_zero.mpr ?_
      intro r hr hbeq
      have hpred := (List.mem_filter.mp hr).2
      have : rowGid r = g := by simpa using hbeq
      rw [this, hcontg_s] at hpred
      simp at hpred
    have hc2 : (s.filter (fun r => !((m.map rowGid).contains (rowGid r)))).countP
        (fun r => rowGid r == g) = 0 := by
      refine List.countP_eq_zero.mpr ?_
      intro r hr hbeq
      have hpred := (List.mem_filter.mp hr).2
      have : rowGid r = g := by simpa using hbeq
      rw [this, hcontg_m] at hpred
      simp at hpred
    have hc3 : crows.countP (fun r => rowGid r == g) = 1 := by
      have htrans : crows.countP (fun r => rowGid r == g)
          = ((firstDedup (m.map rowGid)).filter
              (fun g2 => (s.map rowGid).contains g2)).countP (fun g2 => g2 == g) := by
        refine exMapM_ok_countP hmm ?_
        intro g2 r hstep
        rw [unionCombineStep_ok_gid hgidn hstep]
      rw [htrans]
      have hnd : ((firstDedup (m.map rowGid)).filter
          (fun g2 => (s.map rowGid).contains g2)).Nodup :=
        (nodup_firstDedup (m.map rowGid)).filter _
      have hgmem : g ∈ (firstDedup (m.map rowGid)).filter
          (fun g2 => (s.map rowGid).contains g2) :=
        List.mem_filter.mpr ⟨(mem_firstDedup _ g).mpr hgm, hcontg_s⟩
      rw [← List.count_eq_countP]
      exact List.count_eq_one_of_mem hnd hgmem
    rw [hc1, hc2, hc3]
  · intro r hr hrg
    subst hout
    rcases List.mem_append.mp hr with hr2 | hr3
    · rcases List.mem_append.mp hr2 with hrm | hrs
      · have hpred := (List.mem_filter.mp hrm).2
        rw [hrg, hcontg_s] at hpred
        simp at hpred
      · have hpred := (List.mem_filter.mp hrs).2
        rw [hrg, hcontg_m] at hpred
        simp at hpred
    · obtain ⟨g2, _, hstep⟩ := exMapM_ok_forall hmm hr3
      have hg2 : g2 = g := by
        rw [← unionCombineStep_ok_gid hgidn hstep, hrg]
      subst hg2
      obtain ⟨mr, sr, hmr, hsr, hcomb⟩ := unionCombineStep_ok_elim hstep
      rw [combineRow] at hcomb
      refine ⟨mr, sr, hmr, hsr, ?_, ?_⟩
      · intro c hc
        exact updateCols_ok_not_mem hcomb hc
      · intro c hc a b qa qb ha hb hqa hqb
        obtain ⟨av, hadd, hnum⟩ := cellAdd_num hqa hqb
        refine ⟨av, qa + qb, updateCols_ok_mem hn hc ?_ hcomb, hnum, ?_⟩
        · simp only [ha, hb, hadd, exMap_ok]
        · rw [sub_self, abs_zero]
          norm_num

/-- Witness for C2: M and S each hold key "k" (spend 50 and 30); the union
emits one "k" record with spend 80 and M's metadata. -/
theorem c2_union_additivity_witness :
    ([[("group_id", Cell.strV "k"), ("spend", Cell.intV 80),
       ("name", Cell.strV "M")]] : List Row).countP
      (fun r => rowGid r == "k") = 1 ∧
    ∀ r ∈ ([[("group_id", Cell.strV "k"), ("spend", Cell.intV 80),
        ("name", Cell.strV "M")]] : List Row), rowGid r = "k" →
      ∃ mr sr, firstRowWith "k"
          [[("group_id", Cell.strV "k"), ("spend", Cell.intV 50),
            ("name", Cell.strV "M")]] = some mr ∧
        firstRowWith "k"
          [[("group_id", Cell.strV "k"), ("spend", Cell.intV 30),
            ("name", Cell.strV "S")]] = some sr ∧
        (∀ c, c ∉ ["spend"] → r.get? c = mr.get? c) ∧
        (∀ c ∈ ["spend"], ∀ a b qa qb, mr.get? c = some a → sr.get? c = some b →
          a.toNum? = some qa → b.toNum? = some qb →
          ∃ v qv, r.get? c = some v ∧ v.toNum? = some qv ∧
            |qv - (qa + qb)| < 1/1000) :=
  c2_union_additivity
    [[("group_id", Cell.strV "k"), ("spend", Cell.intV 50), ("name", Cell.strV "M")]]
    [[("group_id", Cell.strV "k"), ("spend", Cell.intV 30), ("name", Cell.strV "S")]]
    ["spend"] "k" _ (by decide) (by decide) (by decide) (by decide) rfl

/-- C4 counterexample: with a duplicated key in S (key "b" twice), the union
keeps both "b" rows, so the output has 3 rows while
|only_M| + |only_S| + |common| = 1 + 1 + 0 = 2. -/
theorem c4_duplicate_keys_break_count :
    unionStep
      [[("group_id", Cell.strV "a"), ("spend", Cell.intV 1)]]
      [[("group_id", Cell.strV "b"), ("spend", Cell.intV 2)],
       [("group_id", Cell.strV "b"), ("spend", Cell.intV 3)]] ["spend"]
    = .ok [[("group_id", Cell.strV "a"), ("spend", Cell.intV 1)],
           [("group_id", Cell.strV "b"), ("spend", Cell.intV 2)],
           [("group_id", Cell.strV "b"), ("spend", Cell.intV 3)]] ∧
    ([[("group_id", Cell.strV "a"), ("spend", Cell.intV 1)],
      [("group_id", Cell.strV "b"), ("spend", Cell.intV 2)],
      [("group_id", Cell.strV "b"), ("spend", Cell.intV 3)]] : List Row).length = 3 ∧
    (keysOnly [[("group_id", Cell.strV "a"), ("spend", Cell.intV 1)]]
        [[("group_id", Cell.strV "b"), ("spend", Cell.intV 2)],
         [("group_id", Cell.strV "b"), ("spend", Cell.intV 3)]]).length +
      (keysOnly [[("group_id", Cell.strV "b"), ("spend", Cell.intV 2)],
          [("group_id", Cell.strV "b"), ("spend", Cell.intV 3)]]
        [[("group_id", Cell.strV "a"), ("spend", Cell.intV 1)]]).length +
      (keysCommon [[("group_id", Cell.strV "a"), ("spend", Cell.intV 1)]]
        [[("group_id", Cell.strV "b"), ("spend", Cell.intV 2)],
         [("group_id", Cell.strV "b"), ("spend", Cell.intV 3)]]).length = 2 :=
  ⟨rfl, rfl, by decide⟩

/-- C4 amended: when the keys within M and within S are unique (the
partition-level invariant the data model asserts), the union's output row
count is exactly |only_M| + |only_S| + |common|. -/
theorem c4_union_count (m s : List Row) (ncols : List String) (out : List Row)
    (hm : m ≠ []) (hs : s ≠ [])
    (hmn : (m.map rowGid).Nodup) (hsn : (s.map rowGid).Nodup)
    (hok : unionStep m s ncols = .ok out) :
    out.length = (keysOnly m s).length + (keysOnly s m).length +
      (keysCommon m s).length := by
  obtain ⟨crows, hmm, hout⟩ := unionStep_ok_parts hm hs hok
  subst hout
  rw [List.length_append, List.length_append]
  have h3 : crows.length = (keysCommon m s).length := by
    rw [keysCommon]
    exact exMapM_ok_length hmm
  have h1 : (m.filter (fun r => !((s.map rowGid).contains (rowGid r)))).length
      = (keysOnly m s).length := by
    rw [keysOnly, firstDedup_eq_self hmn, List.filter_map, List.length_map]
    rfl
  have h2 : (s.filter (fun r => !((m.map rowGid).contains (rowGid r)))).length
      = (keysOnly s m).length := by
    rw [keysOnly, firstDedup_eq_self hsn, List.filter_map, List.length_map]
    rfl
  omega

/-- Witness for C4 amended: M keys a, k and S keys b, k give
1 + 1 + 1 = 3 output rows. -/
theorem c4_union_count_witness :
    ([[("group_id", Cell.strV "a"), ("spend", Cell.intV 1)],
      [("group_id", Cell.strV "b"), ("spend", Cell.intV 2)],
      [("group_id", Cell.strV "k"), ("spend", Cell.intV 9)]] : List Row).length =
      (keysOnly
        [[("group_id", Cell.strV "a"), ("spend", Cell.intV 1)],
         [("group_id", Cell.strV "k"), ("spend", Cell.intV 4)]]
        [[("group_id", Cell.strV "b"), ("spend", Cell.intV 2)],
         [("group_id", Cell.strV "k"), ("spend", Cell.intV 5)]]).length +
      (keysOnly
        [[("group_id", Cell.strV "b"), ("spend", Cell.intV 2)],
         [("group_id", Cell.strV "k"), ("spend", Cell.intV 5)]]
        [[("group_id", Cell.strV "a"), ("spend", Cell.intV 1)],
         [("group_id", Cell.strV "k"), ("spend", Cell.intV 4)]]).length +
      (keysCommon
        [[("group_id", Cell.strV "a"), ("spend", Cell.intV 1)],
         [("group_id", Cell.strV "k"), ("spend", Cell.intV 4)]]
        [[("group_id", Cell.strV "b"), ("spend", Cell.intV 2)],
         [("group_id", Cell.strV "k"), ("spend", Cell.intV 5)]]).length :=
  c4_union_count
    [[("group_id", Cell.strV "a"), ("spend", Cell.intV 1)],
     [("group_id", Cell.strV "k"), ("spend", Cell.intV 4)]]
    [[("group_id", Cell.strV "b"), ("spend", Cell.intV 2)],
     [("group_id", Cell.strV "k"), ("spend", Cell.intV 5)]]
    ["spend"] _ (by decide) (by decide) (by decide) (by decide) rfl

end MergeExcel
